import Mathlib

/-!
Verification of the amplitude-statistics engine and spectrum handoff of the
Easy Effects spectrum plugin (`src/include/spectrum.hpp`).

The `AudioStatistics` class is embedded shallowly: decibel samples (C++
`float`/`double`) are modelled as exact rationals, with a dedicated
constructor for NaN and the infinities so that the input-validation path of
`add_sample` is represented faithfully.  The GSL routines the class calls
(`gsl_histogram_*`, `gsl_stats_*`) are embedded from their reference
implementations: the statistics functions use GSL's running-mean recurrence
`m += (x - m)/(i+1)`, not the textbook closed forms, and the histogram uses
half-open bins `[range i, range (i+1))` so that a value equal to the upper
end of the range is rejected.  `get_kurtosis` converts the stored dB values
to linear amplitudes with a real exponential, so it and the GSL helpers it
uses are real-valued; everything else is computable over ℚ.
-/

/-- A C++ floating point value fed to `AudioStatistics::add_sample`:
either NaN, an infinity, or a finite value (modelled as an exact rational). -/
inductive FloatVal where
  | nan : FloatVal
  | posInf : FloatVal
  | negInf : FloatVal
  | fin (q : ℚ) : FloatVal
deriving DecidableEq

/-- The input validation of `add_sample` (spectrum.hpp lines 116–121):
NaN is replaced by -120, then `std::clamp(sample, -120.0, 0.0)` is applied.
`std::clamp(v, lo, hi)` is `v < lo ? lo : hi < v ? hi : v`; for the
infinities the comparisons resolve to the corresponding bound. -/
def clampSample : FloatVal → ℚ
  | .nan => -120
  | .posInf => 0
  | .negInf => -120
  | .fin q => if q < -120 then -120 else if 0 < q then 0 else q

/-- A `gsl_histogram`: `range` has length `n + 1`, `bin` has length `n`;
bin `i` covers `[range i, range (i+1))`.  Bin contents are C doubles,
modelled as rationals. -/
structure GslHistogram where
  range : List ℚ
  bin : List ℚ
deriving DecidableEq

namespace GslHistogram

/-- `gsl_histogram_alloc n`: a histogram with `n` bins.  GSL leaves the
arrays uninitialized; the caller in spectrum.hpp immediately resets the
bins and sets the ranges, so the initial contents are irrelevant and are
modelled as zeros. -/
def alloc (n : ℕ) : GslHistogram :=
  { range := List.replicate (n + 1) 0, bin := List.replicate n 0 }

/-- `gsl_histogram_reset`: zeroes every bin, leaves the ranges alone. -/
def resetBins (h : GslHistogram) : GslHistogram :=
  { h with bin := List.replicate h.bin.length 0 }

/-- `gsl_histogram_set_ranges_uniform h xmin xmax`: sets
`range i = xmin + i * (xmax - xmin) / n` for `i < n`, `range n = xmax`,
and zeroes the bins. -/
def setRangesUniform (h : GslHistogram) (xmin xmax : ℚ) : GslHistogram :=
  let n := h.bin.length
  { range := ((List.range n).map fun i : ℕ => xmin + (i : ℚ) * (xmax - xmin) / (n : ℚ)) ++ [xmax],
    bin := List.replicate n 0 }

/-- The bin lookup of `gsl_histogram_increment`: the index `i` with
`range i ≤ x < range (i + 1)`, or `none` when `x` lies outside
`[range 0, range n)` — in particular `x = range n` (the upper end of the
histogram) is out of range.  GSL finds the index by binary search over the
monotone `range` array; for monotone ranges that is the first (and only)
consecutive pair whose half-open interval contains `x`. -/
def findBin (range : List ℚ) (x : ℚ) : Option ℕ :=
  (range.zip range.tail).findIdx? fun p => decide (p.1 ≤ x) && decide (x < p.2)

/-- `gsl_histogram_increment h x`: adds 1 to the bin containing `x`;
if `x` is out of range the histogram is unchanged (GSL returns `GSL_EDOM`,
which spectrum.hpp ignores). -/
def increment (h : GslHistogram) (x : ℚ) : GslHistogram :=
  match findBin h.range x with
  | none => h
  | some i => { h with bin := h.bin.set i (h.bin.getD i 0 + 1) }

end GslHistogram

/-- GSL's running average recurrence: `gsl_stats_mean` and the kurtosis and
variance accumulators all compute `m += (x - m) / (i + 1)` over the data,
starting from `m = 0`, `i = 0`.  Polymorphic so it can be used at ℚ
(`get_mean`) and at ℝ (`get_kurtosis`). -/
def gslAvgGo {α : Type} [Field α] : List α → α → ℕ → α
  | [], m, _ => m
  | x :: xs, m, i => gslAvgGo xs (m + (x - m) / ((i : α) + 1)) (i + 1)

/-- `gsl_stats_mean data 1 n` on a list of length `n`. -/
def gslAvg {α : Type} [Field α] (data : List α) : α :=
  gslAvgGo data 0 0

/-- `gsl_stats_variance data 1 n`: the running average of the squared
deviations from `gsl_stats_mean`, scaled by `n / (n - 1)`. -/
def gslVariance {α : Type} [Field α] (data : List α) : α :=
  let mean := gslAvg data
  gslAvgGo (data.map fun x => (x - mean) * (x - mean)) 0 0 *
    ((data.length : α) / ((data.length : α) - 1))

/-- `gsl_stats_kurtosis_m_sd data 1 n mean sd`: the running average of
`((x - mean)/sd)^4`, minus 3. -/
def gslKurtosisMSd {α : Type} [Field α] (data : List α) (mean sd : α) : α :=
  gslAvgGo (data.map fun x =>
    ((x - mean) / sd) * ((x - mean) / sd) * ((x - mean) / sd) * ((x - mean) / sd)) 0 0 - 3

/-- The state of an `AudioStatistics` object (spectrum.hpp lines 37–147):
the GSL histogram, the circular buffer of dB samples, the configured window
size, the write cursor and the count of valid samples. -/
structure AudioStatistics where
  hist : GslHistogram
  buffer : List ℚ
  window_size : ℕ
  current_pos : ℕ
  total_samples : ℕ
deriving DecidableEq

namespace AudioStatistics

/-- `AudioStatistics::reset`: `gsl_histogram_reset`, fill the buffer with
zeros, zero the cursor and the sample count. -/
def reset (st : AudioStatistics) : AudioStatistics :=
  { st with hist := st.hist.resetBins,
            buffer := List.replicate st.buffer.length 0,
            current_pos := 0,
            total_samples := 0 }

/-- `AudioStatistics::update_histogram_bins n`: free and reallocate the
histogram with `n` bins, call `reset`, then set uniform ranges over
`[-120, 0]`. -/
def update_histogram_bins (st : AudioStatistics) (n : ℕ) : AudioStatistics :=
  let st1 := reset { st with hist := GslHistogram.alloc n }
  { st1 with hist := st1.hist.setRangesUniform (-120) 0 }

/-- The `AudioStatistics(window_size, histogram_bins)` constructor:
`update_histogram_bins histogram_bins`, then `buffer_.resize(window_size)`
(growing the empty vector with zeros) and `current_pos_ = 0`. -/
def mk' (window_size histogram_bins : ℕ) : AudioStatistics :=
  let st0 : AudioStatistics :=
    { hist := GslHistogram.alloc 0, buffer := [], window_size := window_size,
      current_pos := 0, total_samples := 0 }
  let st1 := update_histogram_bins st0 histogram_bins
  { st1 with buffer := List.replicate window_size 0, current_pos := 0 }

/-- `AudioStatistics::add_sample sample`: validate and clamp the input,
store it at the cursor, advance the cursor circularly, saturate the sample
count at the window size, and increment the histogram. -/
def add_sample (st : AudioStatistics) (sample : FloatVal) : AudioStatistics :=
  let db := clampSample sample
  { st with buffer := st.buffer.set st.current_pos db,
            current_pos := (st.current_pos + 1) % st.window_size,
            total_samples :=
              if st.total_samples < st.window_size then st.total_samples + 1
              else st.total_samples,
            hist := st.hist.increment db }

/-- `AudioStatistics::get_window_size`. -/
def get_window_size (st : AudioStatistics) : ℕ := st.window_size

/-- `AudioStatistics::get_histogram_bins` (`hist_->n`). -/
def get_histogram_bins (st : AudioStatistics) : ℕ := st.hist.bin.length

/-- `AudioStatistics::get_mean`: 0 when no samples, otherwise
`gsl_stats_mean` over the first `total_samples_` buffer entries. -/
def get_mean (st : AudioStatistics) : ℚ :=
  if st.total_samples = 0 then 0
  else gslAvg (st.buffer.take st.total_samples)

/-- `AudioStatistics::get_histogram_data`: the bins normalized by the
maximum bin count (all zeros when every bin is empty). -/
def get_histogram_data (st : AudioStatistics) : List ℚ :=
  let max_value := st.hist.bin.foldl (fun a b => if b > a then b else a) 0
  st.hist.bin.map fun b => if max_value > 0 then b / max_value else 0

/-- The linear amplitudes `10^(db/20)` that `get_kurtosis` computes from
the valid buffer entries. -/
noncomputable def linearValues (st : AudioStatistics) : List ℝ :=
  (st.buffer.take st.total_samples).map fun db : ℚ => Real.rpow 10 ((db : ℝ) / 20)

/-- `AudioStatistics::get_kurtosis`: 0 when fewer than 4 samples; otherwise
convert the valid dB samples to linear amplitude, compute `gsl_stats_mean`
and `gsl_stats_variance` on the linear data, take `sd = sqrt variance`,
return 0 when `sd = 0`, else `gsl_stats_kurtosis_m_sd`. -/
noncomputable def get_kurtosis (st : AudioStatistics) : ℝ :=
  if st.total_samples < 4 then 0
  else
    let linear := linearValues st
    let mean := gslAvg linear
    let variance := gslVariance linear
    let sd := Real.sqrt variance
    if sd = 0 then 0 else gslKurtosisMSd linear mean sd

/-- Runs a sequence of `add_sample` calls. -/
def runAdds (st : AudioStatistics) (inputs : List FloatVal) : AudioStatistics :=
  inputs.foldl add_sample st

/-- The statistics-engine states reachable through the public interface,
starting from a constructor call with a positive window size (the
configuration surface allows 128–8192). -/
inductive Reachable : AudioStatistics → Prop
  | ctor (window_size histogram_bins : ℕ) (hws : 0 < window_size) :
      Reachable (mk' window_size histogram_bins)
  | add (st : AudioStatistics) (sample : FloatVal) :
      Reachable st → Reachable (st.add_sample sample)
  | rst (st : AudioStatistics) : Reachable st → Reachable st.reset
  | upd (st : AudioStatistics) (n : ℕ) :
      Reachable st → Reachable (st.update_histogram_bins n)

end AudioStatistics

section SpecSide

/-- Spec side: the last `n` elements of a list (the `n` most recently added
values, when the list collects inputs in order). -/
def lastN {α : Type} (n : ℕ) (xs : List α) : List α :=
  xs.drop (xs.length - n)

/-- Spec side: the arithmetic mean `(Σ xs) / n` of a list of values. -/
def listMean {α : Type} [Field α] (xs : List α) : α :=
  xs.sum / (xs.length : α)

/-- Spec side: the sample standard deviation
`sqrt (Σ (x - mean)² / (n - 1))` of a list of reals — the quantity
`get_kurtosis` tests against zero. -/
noncomputable def sampleSd (xs : List ℝ) : ℝ :=
  Real.sqrt ((xs.map fun x => (x - listMean xs) ^ 2).sum / ((xs.length : ℝ) - 1))

/-- Spec side: the excess kurtosis of a list of reals, computed with its
mean and (sample) standard deviation: `(Σ ((x - mean)/sd)⁴) / n - 3`. -/
noncomputable def excessKurtosis (xs : List ℝ) : ℝ :=
  (xs.map fun x => ((x - listMean xs) / sampleSd xs) ^ 4).sum / (xs.length : ℝ) - 3

/-- Spec side: the `i`-th boundary of the uniform partition of `[-120, 0]`
into `n` bins: `-120 + i * 120 / n`. -/
def uniformBoundary (n i : ℕ) : ℚ :=
  -120 + (i : ℚ) * 120 / (n : ℚ)

/-- Spec side: the index of the uniform-partition bin whose half-open
interval `[uniformBoundary n i, uniformBoundary n (i+1))` contains `x`. -/
def uniformBinIndex (n : ℕ) (x : ℚ) : ℕ :=
  ⌊(x + 120) * (n : ℚ) / 120⌋₊

/-- Spec side: the boundary list of the uniform partition of `[-120, 0]`
into `n` bins, ending exactly at 0. -/
def uniformRangeList (n : ℕ) : List ℚ :=
  ((List.range n).map fun i => uniformBoundary n i) ++ [0]

end SpecSide

section CheckedKurtosis

/-!
A checked re-evaluation of `get_kurtosis` where every floating-point
operation that can produce NaN or ±Inf from finite arguments — division
(by zero) and square root (of a negative) — returns `none` in that case.
The inputs (linear amplitudes `10^(db/20)` of clamped dB values) are
finite, positive and bounded by 1, so these are the only NaN/Inf sources
in the IEEE evaluation of the C++ code.
-/

/-- Division that fails on a zero divisor (IEEE `x/0` is ±Inf or NaN). -/
noncomputable def divCheck (x y : ℝ) : Option ℝ :=
  if y = 0 then none else some (x / y)

/-- Square root that fails on a negative argument (IEEE NaN). -/
noncomputable def sqrtCheck (x : ℝ) : Option ℝ :=
  if x < 0 then none else some (Real.sqrt x)

/-- The GSL running-average recurrence with checked division. -/
noncomputable def gslAvgGoCheck : List ℝ → ℝ → ℕ → Option ℝ
  | [], m, _ => some m
  | x :: xs, m, i =>
      match divCheck (x - m) ((i : ℝ) + 1) with
      | none => none
      | some d => gslAvgGoCheck xs (m + d) (i + 1)

/-- `get_kurtosis` re-evaluated with checked division and square root,
following the same computation steps: mean, variance
(running average of squared deviations times `n / (n - 1)`),
`sd = sqrt variance`, then the running average of `((x - mean)/sd)⁴`. -/
noncomputable def get_kurtosisCheck (st : AudioStatistics) : Option ℝ :=
  if st.total_samples < 4 then some 0
  else
    let linear := st.linearValues
    let n : ℝ := (linear.length : ℝ)
    (gslAvgGoCheck linear 0 0).bind fun mean =>
      (gslAvgGoCheck (linear.map fun x => (x - mean) * (x - mean)) 0 0).bind fun v0 =>
        (divCheck n (n - 1)).bind fun ratio =>
          (sqrtCheck (v0 * ratio)).bind fun sd =>
            if sd = 0 then some 0
            else
              (linear.mapM fun x => divCheck (x - mean) sd).bind fun terms =>
                (gslAvgGoCheck (terms.map fun t => t * t * t * t) 0 0).bind fun avg =>
                  some (avg - 3)

end CheckedKurtosis

section HandoffModel

/-- Modelled from the spec: the payload moved by the lock-free spectrum
handoff, the `(rate, n_bands, magnitudes)` triple returned by
`Spectrum::compute_magnitudes` (declared in spectrum.hpp line 171; its body
in spectrum.cpp is not part of the sources, so the handoff is modelled from
§4.2 of the spec).  Magnitudes are modelled as exact rationals. -/
structure SpectrumData where
  rate : ℕ
  n_bands : ℕ
  magnitudes : List ℚ
deriving DecidableEq

/-- Modelled from the spec: the "not ready" sentinel, `rate = 0` and
`band count = 0`. -/
def notReady : SpectrumData :=
  { rate := 0, n_bands := 0, magnitudes := [] }

/-- Modelled from the spec: the double-buffer pair plus the control word of
the handoff (`Spectrum::db_buffers` / `db_control`, spectrum.hpp lines
199–207).  `current` is the slot-index bit (the slot holding the most
recently published spectrum), `newdata` and `busy` the other two bits of
the atomic control word. -/
structure Handoff where
  slot0 : SpectrumData
  slot1 : SpectrumData
  current : Bool
  newdata : Bool
  busy : Bool
deriving DecidableEq

namespace Handoff

/-- The slot selected by a slot-index bit. -/
def slot (h : Handoff) (b : Bool) : SpectrumData :=
  if b then h.slot1 else h.slot0

/-- Modelled from the spec (§4.2 `publish`): write the spectrum into the
slot that is not current (with the busy bit held during the write), then
flip the current-slot bit, set the new-data flag and clear the busy flag. -/
def publish (h : Handoff) (s : SpectrumData) : Handoff :=
  if h.current then
    { h with slot0 := s, current := false, newdata := true, busy := false }
  else
    { h with slot1 := s, current := true, newdata := true, busy := false }

/-- Modelled from the spec (§4.2 `consume`): read the control word; if
new-data is set and busy is clear, return the current slot and clear the
new-data flag; otherwise return the not-ready sentinel and leave the state
alone. -/
def consume (h : Handoff) : Handoff × SpectrumData :=
  if h.newdata ∧ ¬h.busy then ({ h with newdata := false }, h.slot h.current)
  else (h, notReady)

end Handoff

end HandoffModel

section NotificationModel

/-- Modelled from the spec: the `Spectrum` object as seen by the
notification contract — its statistics engine together with the list of
observers registered on `signal_histogram_bins_changed` (spectrum.hpp line
175; the code that emits the signal lives in spectrum.cpp, which is not
part of the sources, so emission is modelled from §4.4 of the spec:
the signal fires exactly when `update_histogram_bins` changes the bin
count).  Observers are identified by naturals; delivery is the list of
`(observer, payload)` calls, in order. -/
structure SpectrumModel where
  stats : AudioStatistics
  observers : List ℕ

namespace SpectrumModel

/-- Modelled from the spec: a bin-count update.  The statistics engine is
reconfigured; when the bin count actually changes, every registered
observer is called synchronously, in registration order, with the new bin
count as payload. -/
def updateBins (m : SpectrumModel) (n : ℕ) : SpectrumModel × List (ℕ × ℕ) :=
  ({ m with stats := m.stats.update_histogram_bins n },
   if n = m.stats.get_histogram_bins then [] else m.observers.map fun o => (o, n))

/-- Modelled from the spec: feeding a sample emits no notification. -/
def addSample (m : SpectrumModel) (s : FloatVal) : SpectrumModel × List (ℕ × ℕ) :=
  ({ m with stats := m.stats.add_sample s }, [])

/-- Modelled from the spec: a statistics reset emits no notification. -/
def resetStats (m : SpectrumModel) : SpectrumModel × List (ℕ × ℕ) :=
  ({ m with stats := m.stats.reset }, [])

end SpectrumModel

end NotificationModel

section GslStatsLemmas

variable {α : Type} [Field α] [CharZero α]

theorem gslAvgGo_eq (xs : List α) :
    ∀ (m : α) (i : ℕ), 0 < i + xs.length →
      gslAvgGo xs m i = (m * (i : α) + xs.sum) / ((i : α) + (xs.length : α)) := by
  induction xs with
  | nil =>
      intro m i hi
      have hi1 : 0 < i := by simpa using hi
      have hi0 : (i : α) ≠ 0 := Nat.cast_ne_zero.mpr (by omega)
      simp [gslAvgGo, mul_div_assoc, div_self hi0]
  | cons x xs ih =>
      intro m i _
      have hlen : 0 < (i + 1) + xs.length := by omega
      have hne : ((i : α) + 1) ≠ 0 := by
        have := Nat.cast_ne_zero (R := α).mpr (Nat.succ_ne_zero i)
        push_cast at this
        simpa using this
      rw [gslAvgGo, ih _ (i + 1) hlen]
      have hnum : (m + (x - m) / ((i : α) + 1)) * ((i + 1 : ℕ) : α) = m * (i : α) + x := by
        push_cast
        field_simp
        ring
      rw [hnum]
      simp only [List.length_cons, List.sum_cons]
      push_cast
      ring_nf

theorem gslAvg_eq (xs : List α) : gslAvg xs = xs.sum / (xs.length : α) := by
  cases xs with
  | nil => simp [gslAvg, gslAvgGo]
  | cons x xs =>
      rw [gslAvg, gslAvgGo_eq _ _ _ (by simp)]
      simp

theorem gslAvg_eq_listMean (xs : List α) : gslAvg xs = listMean xs :=
  gslAvg_eq xs

theorem gslVariance_eq (xs : List α) (hn : xs.length ≠ 0) :
    gslVariance xs =
      ((xs.map fun x => (x - listMean xs) ^ 2).sum) / ((xs.length : α) - 1) := by
  have hcast : (xs.length : α) ≠ 0 := Nat.cast_ne_zero.mpr hn
  rw [gslVariance]
  rw [show (gslAvgGo (xs.map fun x => (x - gslAvg xs) * (x - gslAvg xs)) 0 0 : α)
        = gslAvg (xs.map fun x => (x - gslAvg xs) * (x - gslAvg xs)) from rfl]
  rw [gslAvg_eq, gslAvg_eq_listMean]
  have hmap : (xs.map fun x => (x - listMean xs) * (x - listMean xs))
      = xs.map fun x => (x - listMean xs) ^ 2 := by
    simp [sq]
  rw [hmap, List.length_map]
  rw [div_mul_div_comm, mul_comm ((xs.map fun x => (x - listMean xs) ^ 2).sum) _,
    mul_div_mul_left _ _ hcast]

theorem gslKurtosisMSd_eq (xs : List α) (mean sd : α) :
    gslKurtosisMSd xs mean sd =
      ((xs.map fun x => ((x - mean) / sd) ^ 4).sum) / (xs.length : α) - 3 := by
  rw [gslKurtosisMSd]
  rw [show (gslAvgGo (xs.map fun x =>
        ((x - mean) / sd) * ((x - mean) / sd) * ((x - mean) / sd) * ((x - mean) / sd)) 0 0 : α)
      = gslAvg (xs.map fun x =>
        ((x - mean) / sd) * ((x - mean) / sd) * ((x - mean) / sd) * ((x - mean) / sd)) from rfl]
  rw [gslAvg_eq]
  have hmap : (xs.map fun x =>
      ((x - mean) / sd) * ((x - mean) / sd) * ((x - mean) / sd) * ((x - mean) / sd))
      = xs.map fun x => ((x - mean) / sd) ^ 4 := by
    congr 1
    funext x
    ring
  rw [hmap, List.length_map]

end GslStatsLemmas

/-- C1: for every statistics-engine state (with its valid-sample count
within the buffer, as every reachable state has), `get_kurtosis` returns 0
if fewer than 4 samples have been recorded or if the (sample) standard
deviation of the linear amplitudes `10^(db/20)` of the stored dB samples
is 0; otherwise it returns the excess kurtosis of those linear values,
computed with their mean and standard deviation. -/
theorem get_kurtosis_follows_spec (st : AudioStatistics)
    (h : st.total_samples ≤ st.buffer.length) :
    st.get_kurtosis =
      if st.total_samples < 4 ∨ sampleSd st.linearValues = 0 then 0
      else excessKurtosis st.linearValues := by
  by_cases h4 : st.total_samples < 4
  · rw [AudioStatistics.get_kurtosis, if_pos h4, if_pos (Or.inl h4)]
  · have hlen : st.linearValues.length = st.total_samples := by
      rw [AudioStatistics.linearValues, List.length_map, List.length_take]
      omega
    have hn0 : st.linearValues.length ≠ 0 := by omega
    have hsd : Real.sqrt (gslVariance st.linearValues) = sampleSd st.linearValues := by
      rw [gslVariance_eq _ hn0, sampleSd]
    rw [AudioStatistics.get_kurtosis, if_neg h4]
    show (if Real.sqrt (gslVariance st.linearValues) = 0 then (0 : ℝ)
          else gslKurtosisMSd st.linearValues (gslAvg st.linearValues)
            (Real.sqrt (gslVariance st.linearValues))) = _
    rw [hsd]
    by_cases hz : sampleSd st.linearValues = 0
    · rw [if_pos hz, if_pos (Or.inr hz)]
    · rw [if_neg hz, if_neg (not_or.mpr ⟨h4, hz⟩)]
      rw [gslKurtosisMSd_eq, gslAvg_eq_listMean, excessKurtosis]

/-- Witness for `get_kurtosis_follows_spec` at a freshly constructed
engine. -/
theorem get_kurtosis_follows_spec_witness :
    (AudioStatistics.mk' 4 2).total_samples ≤ (AudioStatistics.mk' 4 2).buffer.length ∧
    (AudioStatistics.mk' 4 2).get_kurtosis =
      (if (AudioStatistics.mk' 4 2).total_samples < 4 ∨
          sampleSd (AudioStatistics.mk' 4 2).linearValues = 0 then 0
       else excessKurtosis (AudioStatistics.mk' 4 2).linearValues) :=
  ⟨by decide, get_kurtosis_follows_spec _ (by decide)⟩

/-- Helper: the maximum-bin fold of `get_histogram_data` over all-zero bins
is 0. -/
theorem foldl_max_replicate_zero (n : ℕ) :
    (List.replicate n (0 : ℚ)).foldl (fun a b => if b > a then b else a) 0 = 0 := by
  induction n with
  | zero => rfl
  | succ k ih => simpa [List.replicate_succ] using ih

/-- C8: `reset` zeroes every histogram bin, every Statistics Window entry,
the cursor and the valid-sample count, and leaves the configured window
size, the histogram bin count and the bin ranges unchanged. -/
theorem reset_spec (st : AudioStatistics) :
    st.reset.hist.bin = List.replicate st.hist.bin.length 0 ∧
    st.reset.buffer = List.replicate st.buffer.length 0 ∧
    st.reset.current_pos = 0 ∧
    st.reset.total_samples = 0 ∧
    st.reset.get_window_size = st.get_window_size ∧
    st.reset.get_histogram_bins = st.get_histogram_bins ∧
    st.reset.hist.range = st.hist.range := by
  refine ⟨rfl, rfl, rfl, rfl, rfl, ?_, rfl⟩
  simp [AudioStatistics.get_histogram_bins, AudioStatistics.reset, GslHistogram.resetBins]

/-- C9: calling `update_histogram_bins` twice in a row with the same bin
count leaves the engine in exactly the same state (histogram ranges and
contents, buffer, cursor, count) as calling it once. -/
theorem update_histogram_bins_idempotent (st : AudioStatistics) (n : ℕ) :
    (st.update_histogram_bins n).update_histogram_bins n = st.update_histogram_bins n := by
  simp [AudioStatistics.update_histogram_bins, AudioStatistics.reset,
    GslHistogram.alloc, GslHistogram.setRangesUniform, GslHistogram.resetBins]

/-- C6: after `update_histogram_bins n` the histogram data has exactly `n`
entries, all 0; the Statistics Window, cursor and count are reset to the
empty state; and the histogram data stays `n` zeros under the only other
mutating operation short of `add_sample` (`reset` — the getters are pure). -/
theorem update_histogram_bins_resets (st : AudioStatistics) (n : ℕ) :
    (st.update_histogram_bins n).get_histogram_data = List.replicate n 0 ∧
    (st.update_histogram_bins n).current_pos = 0 ∧
    (st.update_histogram_bins n).total_samples = 0 ∧
    (st.update_histogram_bins n).buffer = List.replicate st.buffer.length 0 ∧
    (st.update_histogram_bins n).reset.get_histogram_data = List.replicate n 0 := by
  refine ⟨?_, rfl, rfl, rfl, ?_⟩ <;>
    simp [AudioStatistics.get_histogram_data, AudioStatistics.update_histogram_bins,
      AudioStatistics.reset, GslHistogram.alloc, GslHistogram.setRangesUniform,
      GslHistogram.resetBins, foldl_max_replicate_zero, List.map_replicate]

/-- C2: a `publish` followed by a single `consume` returns exactly the
published spectrum, and a second `consume` immediately after, with no
intervening `publish`, returns the not-ready sentinel (`rate = 0`,
`n_bands = 0`). -/
theorem publish_consume_roundtrip (h : Handoff) (s : SpectrumData) :
    ((h.publish s).consume).2 = s ∧
    ((((h.publish s).consume).1).consume).2 = notReady ∧
    notReady.rate = 0 ∧ notReady.n_bands = 0 := by
  cases hc : h.current <;>
    simp [Handoff.publish, Handoff.consume, Handoff.slot, hc, notReady]

/-- C7: a call to `updateBins` that changes the bin count to `n` delivers
the bins-changed notification to every registered observer exactly once,
in registration order, with payload `n`; `addSample` and `resetStats`
deliver no notification. -/
theorem updateBins_notification (m : SpectrumModel) (n : ℕ)
    (hch : n ≠ m.stats.get_histogram_bins) :
    (m.updateBins n).2 = m.observers.map (fun o => (o, n)) ∧
    (∀ s, (m.addSample s).2 = []) ∧
    (m.resetStats).2 = [] := by
  refine ⟨?_, fun s => rfl, rfl⟩
  simp [SpectrumModel.updateBins, hch]

/-- Witness for `updateBins_notification`: an engine with 2 bins and two
observers, resized to 5 bins. -/
theorem updateBins_notification_witness :
    (5 ≠ (AudioStatistics.mk' 4 2).get_histogram_bins) ∧
    ((SpectrumModel.mk (AudioStatistics.mk' 4 2) [0, 1]).updateBins 5).2 =
      [0, 1].map (fun o => (o, 5)) ∧
    (∀ s, ((SpectrumModel.mk (AudioStatistics.mk' 4 2) [0, 1]).addSample s).2 = []) ∧
    ((SpectrumModel.mk (AudioStatistics.mk' 4 2) [0, 1]).resetStats).2 = [] :=
  ⟨by decide, updateBins_notification _ 5 (by decide)⟩

/-- Helper: the window invariant holds at construction. -/
theorem windowInv_mk (ws bins : ℕ) (hws : 0 < ws) :
    0 < (AudioStatistics.mk' ws bins).window_size ∧
    (AudioStatistics.mk' ws bins).buffer.length = (AudioStatistics.mk' ws bins).window_size ∧
    (AudioStatistics.mk' ws bins).current_pos < (AudioStatistics.mk' ws bins).window_size ∧
    (AudioStatistics.mk' ws bins).total_samples ≤ (AudioStatistics.mk' ws bins).window_size ∧
    ((AudioStatistics.mk' ws bins).total_samples < (AudioStatistics.mk' ws bins).window_size →
      (AudioStatistics.mk' ws bins).current_pos = (AudioStatistics.mk' ws bins).total_samples) := by
  refine ⟨hws, ?_, hws, Nat.zero_le _, fun _ => rfl⟩
  show (List.replicate ws (0 : ℚ)).length = ws
  simp

/-- Helper: `add_sample` preserves the window invariant. -/
theorem windowInv_add (st : AudioStatistics) (s : FloatVal)
    (hws : 0 < st.window_size)
    (hlen : st.buffer.length = st.window_size)
    (htot : st.total_samples ≤ st.window_size)
    (heq : st.total_samples < st.window_size → st.current_pos = st.total_samples) :
    0 < (st.add_sample s).window_size ∧
    (st.add_sample s).buffer.length = (st.add_sample s).window_size ∧
    (st.add_sample s).current_pos < (st.add_sample s).window_size ∧
    (st.add_sample s).total_samples ≤ (st.add_sample s).window_size ∧
    ((st.add_sample s).total_samples < (st.add_sample s).window_size →
      (st.add_sample s).current_pos = (st.add_sample s).total_samples) := by
  refine ⟨hws, ?_, Nat.mod_lt _ hws, ?_, ?_⟩
  · show (st.buffer.set st.current_pos (clampSample s)).length = st.window_size
    simpa using hlen
  · show (if st.total_samples < st.window_size then st.total_samples + 1
          else st.total_samples) ≤ st.window_size
    split <;> omega
  · show (if st.total_samples < st.window_size then st.total_samples + 1
          else st.total_samples) < st.window_size →
      (st.current_pos + 1) % st.window_size =
        (if st.total_samples < st.window_size then st.total_samples + 1
         else st.total_samples)
    by_cases hfull : st.total_samples < st.window_size
    · rw [if_pos hfull]
      intro hlt
      rw [heq hfull]
      exact Nat.mod_eq_of_lt hlt
    · rw [if_neg hfull]
      omega

/-- Helper: `reset` preserves the window invariant. -/
theorem windowInv_reset (st : AudioStatistics)
    (hws : 0 < st.window_size)
    (hlen : st.buffer.length = st.window_size) :
    0 < st.reset.window_size ∧
    st.reset.buffer.length = st.reset.window_size ∧
    st.reset.current_pos < st.reset.window_size ∧
    st.reset.total_samples ≤ st.reset.window_size ∧
    (st.reset.total_samples < st.reset.window_size →
      st.reset.current_pos = st.reset.total_samples) :=
  ⟨hws, by simpa [AudioStatistics.reset] using hlen, hws, Nat.zero_le _, fun _ => rfl⟩

/-- Helper: `update_histogram_bins` preserves the window invariant. -/
theorem windowInv_upd (st : AudioStatistics) (n : ℕ)
    (hws : 0 < st.window_size)
    (hlen : st.buffer.length = st.window_size) :
    0 < (st.update_histogram_bins n).window_size ∧
    (st.update_histogram_bins n).buffer.length = (st.update_histogram_bins n).window_size ∧
    (st.update_histogram_bins n).current_pos < (st.update_histogram_bins n).window_size ∧
    (st.update_histogram_bins n).total_samples ≤ (st.update_histogram_bins n).window_size ∧
    ((st.update_histogram_bins n).total_samples < (st.update_histogram_bins n).window_size →
      (st.update_histogram_bins n).current_pos = (st.update_histogram_bins n).total_samples) :=
  ⟨hws, by simpa [AudioStatistics.update_histogram_bins, AudioStatistics.reset] using hlen,
    hws, Nat.zero_le _, fun _ => rfl⟩

/-- C10: every reachable statistics-engine state keeps the buffer at the
configured window size, the cursor strictly below the window size, the
valid-sample count at most the window size, and — while the window is not
yet full — the cursor equal to the count, so the valid samples are exactly
the first `total_samples` entries of the buffer. -/
theorem reachable_invariant (st : AudioStatistics) (h : st.Reachable) :
    0 < st.window_size ∧
    st.buffer.length = st.window_size ∧
    st.current_pos < st.window_size ∧
    st.total_samples ≤ st.window_size ∧
    (st.total_samples < st.window_size → st.current_pos = st.total_samples) := by
  induction h with
  | ctor ws bins hws => exact windowInv_mk ws bins hws
  | add st s hr ih => exact windowInv_add st s ih.1 ih.2.1 ih.2.2.2.1 ih.2.2.2.2
  | rst st hr ih => exact windowInv_reset st ih.1 ih.2.1
  | upd st n hr ih => exact windowInv_upd st n ih.1 ih.2.1

/-- Witness for `reachable_invariant` at a freshly constructed engine. -/
theorem reachable_invariant_witness :
    (AudioStatistics.mk' 4 2).Reachable ∧
    (0 < (AudioStatistics.mk' 4 2).window_size ∧
     (AudioStatistics.mk' 4 2).buffer.length = (AudioStatistics.mk' 4 2).window_size ∧
     (AudioStatistics.mk' 4 2).current_pos < (AudioStatistics.mk' 4 2).window_size ∧
     (AudioStatistics.mk' 4 2).total_samples ≤ (AudioStatistics.mk' 4 2).window_size ∧
     ((AudioStatistics.mk' 4 2).total_samples < (AudioStatistics.mk' 4 2).window_size →
       (AudioStatistics.mk' 4 2).current_pos = (AudioStatistics.mk' 4 2).total_samples)) :=
  ⟨AudioStatistics.Reachable.ctor 4 2 (by decide),
   reachable_invariant _ (AudioStatistics.Reachable.ctor 4 2 (by decide))⟩

section UniformBinLemmas

/-- Helper: the uniform boundaries are monotone in the index. -/
theorem uniformBoundary_mono (n : ℕ) (hn : 0 < n) {j k : ℕ} (h : j ≤ k) :
    uniformBoundary n j ≤ uniformBoundary n k := by
  have hn' : (0 : ℚ) < n := by exact_mod_cast hn
  have hjk : (j : ℚ) ≤ k := by exact_mod_cast h
  unfold uniformBoundary
  gcongr

/-- Helper: the last uniform boundary is 0. -/
theorem uniformBoundary_self (n : ℕ) (hn : 0 < n) : uniformBoundary n n = 0 := by
  have hn' : (n : ℚ) ≠ 0 := by exact_mod_cast hn.ne'
  field_simp [uniformBoundary]

/-- Helper: `uniformBoundary n k ≤ x` unfolded to a product comparison. -/
theorem boundary_le_iff (n : ℕ) (hn : 0 < n) (k : ℕ) (x : ℚ) :
    uniformBoundary n k ≤ x ↔ (k : ℚ) * 120 ≤ (x + 120) * n := by
  have hn' : (0 : ℚ) < n := by exact_mod_cast hn
  rw [uniformBoundary]
  constructor
  · intro h
    exact (div_le_iff hn').mp (by linarith)
  · intro h
    have h2 : (k : ℚ) * 120 / n ≤ x + 120 := (div_le_iff hn').mpr h
    linarith

/-- Helper: `x < uniformBoundary n k` unfolded to a product comparison. -/
theorem lt_boundary_iff (n : ℕ) (hn : 0 < n) (k : ℕ) (x : ℚ) :
    x < uniformBoundary n k ↔ (x + 120) * n < (k : ℚ) * 120 := by
  have hn' : (0 : ℚ) < n := by exact_mod_cast hn
  rw [uniformBoundary]
  constructor
  · intro h
    exact (lt_div_iff hn').mp (by linarith)
  · intro h
    have h2 : x + 120 < (k : ℚ) * 120 / n := (lt_div_iff hn').mpr h
    linarith

/-- Helper: for `-120 ≤ x < 0` the bin `uniformBinIndex n x` exists and its
half-open interval contains `x`. -/
theorem uniformBinIndex_spec (n : ℕ) (hn : 0 < n) (x : ℚ)
    (hlo : -120 ≤ x) (hhi : x < 0) :
    uniformBinIndex n x < n ∧
    uniformBoundary n (uniformBinIndex n x) ≤ x ∧
    x < uniformBoundary n (uniformBinIndex n x + 1) := by
  have hn' : (0 : ℚ) < n := by exact_mod_cast hn
  have hy0 : 0 ≤ (x + 120) * (n : ℚ) / 120 := by
    apply div_nonneg _ (by norm_num)
    have : (0 : ℚ) ≤ x + 120 := by linarith
    positivity
  have hyn : (x + 120) * (n : ℚ) / 120 < n := by
    rw [div_lt_iff (by norm_num : (0 : ℚ) < 120)]
    nlinarith
  refine ⟨(Nat.floor_lt hy0).mpr hyn, ?_, ?_⟩
  · rw [boundary_le_iff n hn]
    have h1 : ((uniformBinIndex n x : ℕ) : ℚ) ≤ (x + 120) * (n : ℚ) / 120 :=
      Nat.floor_le hy0
    exact (le_div_iff (by norm_num : (0 : ℚ) < 120)).mp h1
  · rw [lt_boundary_iff n hn]
    have h2 : (x + 120) * (n : ℚ) / 120 < (uniformBinIndex n x : ℚ) + 1 :=
      Nat.lt_floor_add_one _
    have h3 := (div_lt_iff (by norm_num : (0 : ℚ) < 120)).mp h2
    push_cast
    linarith

/-- Helper: the containing bin is unique. -/
theorem uniformBinIndex_unique (n : ℕ) (hn : 0 < n) (x : ℚ) (j : ℕ)
    (h1 : uniformBoundary n j ≤ x) (h2 : x < uniformBoundary n (j + 1)) :
    j = uniformBinIndex n x := by
  have hn' : (0 : ℚ) < n := by exact_mod_cast hn
  rw [boundary_le_iff n hn] at h1
  rw [lt_boundary_iff n hn] at h2
  have hy0 : 0 ≤ (x + 120) * (n : ℚ) / 120 := by
    apply div_nonneg _ (by norm_num)
    have hj : (0 : ℚ) ≤ (j : ℚ) * 120 := by positivity
    nlinarith
  symm
  rw [uniformBinIndex, Nat.floor_eq_iff hy0]
  constructor
  · exact (le_div_iff (by norm_num : (0 : ℚ) < 120)).mpr h1
  · rw [div_lt_iff (by norm_num : (0 : ℚ) < 120)]
    push_cast at h2 ⊢
    linarith

/-- Helper: the boundary list produced by
`gsl_histogram_set_ranges_uniform h (-120) 0` is `uniformRangeList n` when
`h` has `n` bins. -/
theorem setRangesUniform_range (h : GslHistogram) (n : ℕ)
    (hb : h.bin.length = n) :
    (h.setRangesUniform (-120) 0).range = uniformRangeList n := by
  subst hb
  simp only [GslHistogram.setRangesUniform, uniformRangeList]
  congr 1
  apply List.map_congr_left
  intro i _
  rw [uniformBoundary]
  norm_num

/-- Helper: length of the uniform boundary list. -/
theorem uniformRangeList_length (n : ℕ) :
    (uniformRangeList n).length = n + 1 := by
  simp [uniformRangeList]

/-- Helper: every element of the uniform boundary list. -/
theorem uniformRangeList_getElem (n : ℕ) (hn : 0 < n) (k : ℕ)
    (hk : k < (uniformRangeList n).length) :
    (uniformRangeList n)[k] = uniformBoundary n k := by
  have hlen : (uniformRangeList n).length = n + 1 := uniformRangeList_length n
  by_cases hkn : k < n
  · simp only [uniformRangeList]
    rw [List.getElem_append_left (by simpa using hkn), List.getElem_map,
      List.getElem_range]
  · have hk1 : k = n := by omega
    subst hk1
    simp only [uniformRangeList]
    rw [List.getElem_append_right (by simp)]
    simp [uniformBoundary_self k hn]

/-- Helper: on the uniform boundary list, the GSL bin search finds exactly
`uniformBinIndex n x` for `-120 ≤ x < 0`. -/
theorem findBin_uniform_of_lt (n : ℕ) (hn : 0 < n) (x : ℚ)
    (hlo : -120 ≤ x) (hhi : x < 0) :
    GslHistogram.findBin (uniformRangeList n) x = some (uniformBinIndex n x) := by
  obtain ⟨hilt, hble, hblt⟩ := uniformBinIndex_spec n hn x hlo hhi
  have hlenR : (uniformRangeList n).length = n + 1 := uniformRangeList_length n
  have hlenZ : ((uniformRangeList n).zip (uniformRangeList n).tail).length = n := by
    simp [List.length_zip, List.length_tail, hlenR]
  rw [GslHistogram.findBin, List.findIdx?_eq_some_iff_getElem]
  refine ⟨by omega, ?_, ?_⟩
  · rw [List.getElem_zip, List.getElem_tail,
      uniformRangeList_getElem n hn _ (by omega), uniformRangeList_getElem n hn _ (by omega)]
    simp only [Bool.and_eq_true, decide_eq_true_eq]
    exact ⟨hble, hblt⟩
  · intro j hji
    rw [List.getElem_zip, List.getElem_tail,
      uniformRangeList_getElem n hn _ (by omega), uniformRangeList_getElem n hn _ (by omega)]
    have hle : uniformBoundary n (j + 1) ≤ x :=
      le_trans (uniformBoundary_mono n hn (by omega : j + 1 ≤ uniformBinIndex n x)) hble
    simp [not_lt.mpr hle]

/-- Helper: on the uniform boundary list, the GSL bin search rejects the
value 0 (it equals the upper end of the range). -/
theorem findBin_uniform_at_zero (n : ℕ) (hn : 0 < n) :
    GslHistogram.findBin (uniformRangeList n) 0 = none := by
  rw [GslHistogram.findBin, List.findIdx?_eq_none_iff]
  intro p hp
  obtain ⟨j, hj, rfl⟩ := List.mem_iff_getElem.mp hp
  have hlenR : (uniformRangeList n).length = n + 1 := uniformRangeList_length n
  have hlenZ : ((uniformRangeList n).zip (uniformRangeList n).tail).length = n := by
    simp [List.length_zip, List.length_tail, hlenR]
  rw [List.getElem_zip, List.getElem_tail,
    uniformRangeList_getElem n hn _ (by omega), uniformRangeList_getElem n hn _ (by omega)]
  have hle : uniformBoundary n (j + 1) ≤ 0 := by
    have h1 := uniformBoundary_mono n hn (by omega : j + 1 ≤ n)
    rwa [uniformBoundary_self n hn] at h1
  simp [not_lt.mpr hle]

end UniformBinLemmas

/-- Helper: the clamped sample always lies in `[-120, 0]`. -/
theorem clampSample_mem (s : FloatVal) :
    -120 ≤ clampSample s ∧ clampSample s ≤ 0 := by
  cases s with
  | nan => norm_num [clampSample]
  | posInf => norm_num [clampSample]
  | negInf => norm_num [clampSample]
  | fin q =>
      rw [clampSample]
      split_ifs <;> constructor <;> linarith

/-- C4 counterexample: the claim fails at the endpoint 0.  The input 0 dB
is clamped to 0 — inside `[-120, 0]` — yet `add_sample` increments no
histogram bin: on a fresh 2-bin engine the bins stay `[0, 0]`. -/
theorem add_sample_at_zero_counterexample :
    clampSample (FloatVal.fin 0) = 0 ∧
    (-120 : ℚ) ≤ clampSample (FloatVal.fin 0) ∧ clampSample (FloatVal.fin 0) ≤ 0 ∧
    (AudioStatistics.mk' 4 2).hist.bin = [0, 0] ∧
    ((AudioStatistics.mk' 4 2).add_sample (FloatVal.fin 0)).hist.bin = [0, 0] := by
  refine ⟨by norm_num [clampSample], by norm_num [clampSample], by norm_num [clampSample], ?_, ?_⟩
  · norm_num [AudioStatistics.mk', AudioStatistics.update_histogram_bins,
      AudioStatistics.reset, GslHistogram.alloc, GslHistogram.setRangesUniform,
      GslHistogram.resetBins, List.replicate_succ]
  · norm_num [AudioStatistics.mk', AudioStatistics.update_histogram_bins,
      AudioStatistics.reset, AudioStatistics.add_sample, GslHistogram.alloc,
      GslHistogram.setRangesUniform, GslHistogram.resetBins,
      GslHistogram.increment, GslHistogram.findBin, List.range_succ, clampSample,
      List.findIdx?, List.replicate_succ]

/-- C4 (amended): on an engine whose histogram has `n` uniform bins over
`[-120, 0]`, `add_sample` increments exactly one bin — the unique bin of
the uniform partition whose half-open interval contains the clamped value —
whenever the clamped value lies in `[-120, 0)`; a clamped value of exactly
0 (the endpoint) increments no bin. -/
theorem add_sample_increments_unique_bin (st : AudioStatistics) (n : ℕ)
    (hn : 0 < n) (hr : st.hist.range = uniformRangeList n) (sample : FloatVal) :
    (clampSample sample < 0 →
      (st.add_sample sample).hist.bin =
        st.hist.bin.set (uniformBinIndex n (clampSample sample))
          (st.hist.bin.getD (uniformBinIndex n (clampSample sample)) 0 + 1) ∧
      uniformBinIndex n (clampSample sample) < n ∧
      uniformBoundary n (uniformBinIndex n (clampSample sample)) ≤ clampSample sample ∧
      clampSample sample < uniformBoundary n (uniformBinIndex n (clampSample sample) + 1) ∧
      ∀ j, uniformBoundary n j ≤ clampSample sample →
        clampSample sample < uniformBoundary n (j + 1) →
        j = uniformBinIndex n (clampSample sample)) ∧
    (clampSample sample = 0 → (st.add_sample sample).hist.bin = st.hist.bin) := by
  obtain ⟨hlo, hhi⟩ := clampSample_mem sample
  constructor
  · intro hlt
    obtain ⟨hilt, hble, hblt⟩ := uniformBinIndex_spec n hn _ hlo hlt
    refine ⟨?_, hilt, hble, hblt, fun j h1 h2 => uniformBinIndex_unique n hn _ j h1 h2⟩
    show (st.hist.increment (clampSample sample)).bin = _
    rw [GslHistogram.increment, hr, findBin_uniform_of_lt n hn _ hlo hlt]
  · intro hz
    show (st.hist.increment (clampSample sample)).bin = st.hist.bin
    rw [GslHistogram.increment, hr, hz, findBin_uniform_at_zero n hn]

/-- Witness for `add_sample_increments_unique_bin`: a fresh 2-bin engine
fed -100 dB. -/
theorem add_sample_increments_unique_bin_witness :
    0 < 2 ∧ (AudioStatistics.mk' 4 2).hist.range = uniformRangeList 2 ∧
    ((clampSample (FloatVal.fin (-100)) < 0 →
      ((AudioStatistics.mk' 4 2).add_sample (FloatVal.fin (-100))).hist.bin =
        (AudioStatistics.mk' 4 2).hist.bin.set
          (uniformBinIndex 2 (clampSample (FloatVal.fin (-100))))
          ((AudioStatistics.mk' 4 2).hist.bin.getD
            (uniformBinIndex 2 (clampSample (FloatVal.fin (-100)))) 0 + 1) ∧
      uniformBinIndex 2 (clampSample (FloatVal.fin (-100))) < 2 ∧
      uniformBoundary 2 (uniformBinIndex 2 (clampSample (FloatVal.fin (-100)))) ≤
        clampSample (FloatVal.fin (-100)) ∧
      clampSample (FloatVal.fin (-100)) <
        uniformBoundary 2 (uniformBinIndex 2 (clampSample (FloatVal.fin (-100))) + 1) ∧
      ∀ j, uniformBoundary 2 j ≤ clampSample (FloatVal.fin (-100)) →
        clampSample (FloatVal.fin (-100)) < uniformBoundary 2 (j + 1) →
        j = uniformBinIndex 2 (clampSample (FloatVal.fin (-100)))) ∧
    (clampSample (FloatVal.fin (-100)) = 0 →
      ((AudioStatistics.mk' 4 2).add_sample (FloatVal.fin (-100))).hist.bin =
        (AudioStatistics.mk' 4 2).hist.bin)) :=
  ⟨by decide,
   by norm_num [AudioStatistics.mk', AudioStatistics.update_histogram_bins,
       AudioStatistics.reset, GslHistogram.alloc, GslHistogram.setRangesUniform,
       GslHistogram.resetBins, uniformRangeList, uniformBoundary, List.range_succ],
   add_sample_increments_unique_bin _ 2 (by decide)
     (by norm_num [AudioStatistics.mk', AudioStatistics.update_histogram_bins,
       AudioStatistics.reset, GslHistogram.alloc, GslHistogram.setRangesUniform,
       GslHistogram.resetBins, uniformRangeList, uniformBoundary, List.range_succ])
     (FloatVal.fin (-100))⟩

section RingBufferLemmas

/-- Helper: writing at index `p` does not change the first `p` elements. -/
theorem take_set_self {α : Type} (l : List α) (p : ℕ) (v : α) :
    (l.set p v).take p = l.take p := by
  apply List.ext_getElem
  · simp
  · intro i h1 h2
    have hip : i < p := by
      simp [List.length_take] at h1
      omega
    simp only [List.getElem_take, List.getElem_set]
    rw [if_neg (by omega)]

/-- Helper: rotating a list by the index just written moves the written
cell to the front. -/
theorem rotate_set_self {α : Type} (l : List α) (p : ℕ) (v : α)
    (hp : p < l.length) :
    (l.set p v).rotate p = (l.rotate p).set 0 v := by
  have hple : p ≤ l.length := hp.le
  rw [List.rotate_eq_drop_append_take (by simpa using hple),
    List.rotate_eq_drop_append_take hple, List.drop_set,
    if_neg (lt_irrefl p), Nat.sub_self, take_set_self, List.set_append,
    if_pos (by simp [List.length_drop]; omega)]

/-- Helper: overwriting the head and rotating once appends the new value
to the tail. -/
theorem set_zero_rotate_one {α : Type} (l : List α) (v : α) (hl : l ≠ []) :
    (l.set 0 v).rotate 1 = l.tail ++ [v] := by
  cases l with
  | nil => exact absurd rfl hl
  | cons a t =>
      show (v :: t).rotate 1 = t ++ [v]
      rw [List.rotate_cons_succ, List.rotate_zero]

/-- Helper: rotating an append by the length of the left part swaps the
parts. -/
theorem rotate_append_left {α : Type} (l₁ l₂ : List α) :
    (l₁ ++ l₂).rotate l₁.length = l₂ ++ l₁ := by
  rw [List.rotate_eq_drop_append_take (by simp), List.drop_left, List.take_left]

/-- Helper: `lastN` of the whole list. -/
theorem lastN_length_self {α : Type} (l : List α) : lastN l.length l = l := by
  simp [lastN]

/-- Helper: length of `lastN`. -/
theorem lastN_length {α : Type} (n : ℕ) (l : List α) (h : n ≤ l.length) :
    (lastN n l).length = n := by
  simp [lastN]
  omega

/-- Helper: full characterization of the engine state after a run of
`add_sample` calls on a fresh engine: the window size, buffer length,
saturating count and circular cursor are as documented, and — rotated by
the cursor — the buffer reads as padding zeros followed by the
`min k ws` most recently added clamped values, in order. -/
theorem runAdds_state (ws bins : ℕ) (hws : 0 < ws) (inputs : List FloatVal) :
    (AudioStatistics.runAdds (AudioStatistics.mk' ws bins) inputs).window_size = ws ∧
    (AudioStatistics.runAdds (AudioStatistics.mk' ws bins) inputs).buffer.length = ws ∧
    (AudioStatistics.runAdds (AudioStatistics.mk' ws bins) inputs).total_samples =
      min inputs.length ws ∧
    (AudioStatistics.runAdds (AudioStatistics.mk' ws bins) inputs).current_pos =
      inputs.length % ws ∧
    (AudioStatistics.runAdds (AudioStatistics.mk' ws bins) inputs).buffer.rotate
        (inputs.length % ws) =
      List.replicate (ws - min inputs.length ws) 0 ++
        lastN (min inputs.length ws) (inputs.map clampSample) := by
  induction inputs using List.reverseRecOn with
  | nil =>
      refine ⟨rfl, by simp [AudioStatistics.mk', AudioStatistics.runAdds], ?_, ?_, ?_⟩
      · show (0 : ℕ) = min 0 ws
        omega
      · show (0 : ℕ) = 0 % ws
        rw [Nat.zero_mod]
      · show (List.replicate ws (0 : ℚ)).rotate (0 % ws) = _
        rw [Nat.zero_mod, List.rotate_zero]
        simp [lastN]
  | append_singleton xs x ih =>
      have hstep : AudioStatistics.runAdds (AudioStatistics.mk' ws bins) (xs ++ [x]) =
          (AudioStatistics.runAdds (AudioStatistics.mk' ws bins) xs).add_sample x := by
        simp [AudioStatistics.runAdds, List.foldl_concat]
      obtain ⟨hw, hl, ht, hp, hrot⟩ := ih
      set st := AudioStatistics.runAdds (AudioStatistics.mk' ws bins) xs with hst
      set k := xs.length with hk
      have hlen1 : (xs ++ [x]).length = k + 1 := by simp
      rw [hstep]
      refine ⟨hw, ?_, ?_, ?_, ?_⟩
      · show (st.buffer.set st.current_pos (clampSample x)).length = ws
        simpa using hl
      · show (if st.total_samples < st.window_size then st.total_samples + 1
              else st.total_samples) = min (xs ++ [x]).length ws
        rw [ht, hw, hlen1]
        split <;> omega
      · show (st.current_pos + 1) % st.window_size = (xs ++ [x]).length % ws
        rw [hp, hw, hlen1]
        exact Nat.mod_add_mod k ws 1
      · show (st.buffer.set st.current_pos (clampSample x)).rotate
            ((xs ++ [x]).length % ws) =
          List.replicate (ws - min (xs ++ [x]).length ws) 0 ++
            lastN (min (xs ++ [x]).length ws) ((xs ++ [x]).map clampSample)
        rw [hp, hlen1]
        have hsetlen : (st.buffer.set (k % ws) (clampSample x)).length = ws := by
          simpa using hl
        have h1 : (st.buffer.set (k % ws) (clampSample x)).rotate ((k % ws + 1) % ws)
            = (st.buffer.set (k % ws) (clampSample x)).rotate (k % ws + 1) := by
          conv_rhs => rw [← List.rotate_mod]
          rw [hsetlen]
        rw [← Nat.mod_add_mod, h1, ← List.rotate_rotate,
          rotate_set_self _ _ _ (by rw [hl]; exact Nat.mod_lt _ hws), hrot]
        by_cases hkws : k < ws
        · have hmin : min k ws = k := by omega
          have hmod : k % ws = k := Nat.mod_eq_of_lt hkws
          rw [hmin] at hrot ⊢
          have hrep : List.replicate (ws - k) (0 : ℚ) =
              0 :: List.replicate (ws - k - 1) 0 := by
            rw [← List.replicate_succ]
            congr 1
            omega
          rw [hrep, List.cons_append, List.set_cons_zero, List.rotate_cons_succ,
            List.rotate_zero]
          have hmapk : (xs.map clampSample).length = k := by simp
          have hLk : lastN k (xs.map clampSample) = xs.map clampSample := by
            rw [← hmapk, lastN_length_self]
          have hmin2 : min (k + 1) ws = k + 1 := by omega
          rw [hmin2, hLk]
          have hmap2 : (xs ++ [x]).map clampSample =
              xs.map clampSample ++ [clampSample x] := by simp
          rw [hmap2]
          have hlast2 : lastN (k + 1) (xs.map clampSample ++ [clampSample x]) =
              xs.map clampSample ++ [clampSample x] := by
            have : (xs.map clampSample ++ [clampSample x]).length = k + 1 := by simp
            rw [← this, lastN_length_self]
          rw [hlast2]
          simp only [List.append_assoc]
          congr 2
        · have hmin : min k ws = ws := by omega
          have hmin2 : min (k + 1) ws = ws := by omega
          rw [hmin] at hrot ⊢
          rw [hmin2, Nat.sub_self, List.replicate_zero, List.nil_append,
            List.nil_append]
          have hmapk : (xs.map clampSample).length = k := by simp
          have hLne : lastN ws (xs.map clampSample) ≠ [] := by
            have : (lastN ws (xs.map clampSample)).length = ws := by
              rw [lastN_length]
              omega
            intro hcon
            rw [hcon] at this
            simp at this
            omega
          rw [set_zero_rotate_one _ _ hLne]
          have htail : (lastN ws (xs.map clampSample)).tail =
              (xs.map clampSample).drop (k + 1 - ws) := by
            rw [lastN, List.tail_drop, hmapk]
            congr 1
            omega
          rw [htail]
          have hmap2 : (xs ++ [x]).map clampSample =
              xs.map clampSample ++ [clampSample x] := by simp
          rw [lastN, hmap2]
          have hlen2 : (xs.map clampSample ++ [clampSample x]).length = k + 1 := by
            simp
          rw [hlen2, List.drop_append_of_le_length (by rw [hmapk]; omega)]

end RingBufferLemmas

/-- C5: on an engine with positive window size, `get_mean` returns 0 when
no samples have been recorded, and otherwise the arithmetic mean of exactly
the valid samples — the `min (count, capacity)` most recently added clamped
values; in particular, feeding only -40 dB until the window is full yields
exactly -40. -/
theorem get_mean_follows_spec (ws bins : ℕ) (hws : 0 < ws) :
    (∀ inputs : List FloatVal,
      (AudioStatistics.runAdds (AudioStatistics.mk' ws bins) inputs).get_mean =
        if inputs = [] then 0
        else listMean (lastN (min inputs.length ws) (inputs.map clampSample))) ∧
    (AudioStatistics.runAdds (AudioStatistics.mk' ws bins)
        (List.replicate ws (FloatVal.fin (-40)))).get_mean = -40 := by
  have hgen : ∀ inputs : List FloatVal,
      (AudioStatistics.runAdds (AudioStatistics.mk' ws bins) inputs).get_mean =
        if inputs = [] then 0
        else listMean (lastN (min inputs.length ws) (inputs.map clampSample)) := by
    intro inputs
    obtain ⟨hw, hl, ht, hp, hrot⟩ := runAdds_state ws bins hws inputs
    set st := AudioStatistics.runAdds (AudioStatistics.mk' ws bins) inputs with hst
    rw [AudioStatistics.get_mean, ht]
    by_cases hnil : inputs = []
    · rw [if_pos hnil, if_pos (by simp [hnil])]
    · have hk0 : 0 < inputs.length := List.length_pos.mpr hnil
      rw [if_neg (by omega : ¬ min inputs.length ws = 0), if_neg hnil,
        gslAvg_eq_listMean]
      have hmaplen : (inputs.map clampSample).length = inputs.length := by simp
      have hlen2 : (st.buffer.take (min inputs.length ws)).length =
          min inputs.length ws := by
        rw [List.length_take, hl]
        omega
      have hlast : (lastN (min inputs.length ws) (inputs.map clampSample)).length =
          min inputs.length ws := by
        rw [lastN_length]
        omega
      have hsum : (st.buffer.take (min inputs.length ws)).sum =
          (lastN (min inputs.length ws) (inputs.map clampSample)).sum := by
        by_cases hwk : ws ≤ inputs.length
        · have hmin : min inputs.length ws = ws := by omega
          rw [hmin] at hrot ⊢
          rw [Nat.sub_self, List.replicate_zero, List.nil_append] at hrot
          have htake : st.buffer.take ws = st.buffer := by
            rw [← hl]
            exact List.take_length st.buffer
          rw [htake, ← hrot]
          exact ((List.rotate_perm st.buffer (inputs.length % ws)).sum_eq).symm
        · have hmin : min inputs.length ws = inputs.length := by omega
          have hmod : inputs.length % ws = inputs.length := Nat.mod_eq_of_lt (by omega)
          rw [hmin] at hrot ⊢
          rw [hmod] at hrot
          have hbuf : st.buffer =
              lastN inputs.length (inputs.map clampSample) ++
                List.replicate (ws - inputs.length) 0 := by
            have hzlen : (List.replicate (ws - inputs.length) (0 : ℚ)).length =
                ws - inputs.length := by simp
            calc st.buffer
                = (st.buffer.rotate inputs.length).rotate (ws - inputs.length) := by
                  rw [List.rotate_rotate,
                    show inputs.length + (ws - inputs.length) = ws by omega, ← hl,
                    List.rotate_length]
              _ = (List.replicate (ws - inputs.length) 0 ++
                    lastN inputs.length (inputs.map clampSample)).rotate
                      (ws - inputs.length) := by rw [hrot]
              _ = lastN inputs.length (inputs.map clampSample) ++
                    List.replicate (ws - inputs.length) 0 := by
                  have hra := rotate_append_left
                    (List.replicate (ws - inputs.length) (0 : ℚ))
                    (lastN inputs.length (inputs.map clampSample))
                  rw [hzlen] at hra
                  exact hra
          have hLlen : (lastN inputs.length (inputs.map clampSample)).length =
              inputs.length := by
            rw [lastN_length]
            omega
          have htl := List.take_left
            (lastN inputs.length (inputs.map clampSample))
            (List.replicate (ws - inputs.length) (0 : ℚ))
          rw [hLlen] at htl
          rw [hbuf, htl]
      rw [listMean, listMean, hlen2, hlast, hsum]
  refine ⟨hgen, ?_⟩
  rw [hgen (List.replicate ws (FloatVal.fin (-40)))]
  have hne : List.replicate ws (FloatVal.fin (-40)) ≠ [] := by
    intro hcon
    have := congrArg List.length hcon
    simp at this
    omega
  rw [if_neg hne]
  have hclamp : clampSample (FloatVal.fin (-40)) = -40 := by norm_num [clampSample]
  have hmap : (List.replicate ws (FloatVal.fin (-40))).map clampSample =
      List.replicate ws (-40 : ℚ) := by
    rw [List.map_replicate, hclamp]
  rw [List.length_replicate, min_self, hmap]
  have hlast : lastN ws (List.replicate ws (-40 : ℚ)) = List.replicate ws (-40 : ℚ) := by
    have hlen := lastN_length_self (List.replicate ws (-40 : ℚ))
    rwa [List.length_replicate] at hlen
  rw [hlast, listMean, List.sum_replicate, nsmul_eq_mul, List.length_replicate]
  have hws' : (ws : ℚ) ≠ 0 := by exact_mod_cast hws.ne'
  field_simp
  ring

/-- Witness for `get_mean_follows_spec` at window size 3: in particular a
window filled with -40 dB averages to exactly -40. -/
theorem get_mean_follows_spec_witness :
    0 < 3 ∧
    ((∀ inputs : List FloatVal,
      (AudioStatistics.runAdds (AudioStatistics.mk' 3 2) inputs).get_mean =
        if inputs = [] then 0
        else listMean (lastN (min inputs.length 3) (inputs.map clampSample))) ∧
    (AudioStatistics.runAdds (AudioStatistics.mk' 3 2)
        (List.replicate 3 (FloatVal.fin (-40)))).get_mean = -40) :=
  ⟨by decide, get_mean_follows_spec 3 2 (by decide)⟩

section SafetyLemmas

/-- Helper: the max-fold of `get_histogram_data` never drops below its
accumulator. -/
theorem maxFold_ge_init (l : List ℚ) (a : ℚ) :
    a ≤ l.foldl (fun a b => if b > a then b else a) a := by
  induction l generalizing a with
  | nil => exact le_refl a
  | cons x l ih =>
      refine le_trans ?_ (ih (if x > a then x else a))
      split <;> linarith

/-- Helper: the max-fold of `get_histogram_data` dominates every element. -/
theorem maxFold_ge_mem (l : List ℚ) (a x : ℚ) (hx : x ∈ l) :
    x ≤ l.foldl (fun a b => if b > a then b else a) a := by
  induction l generalizing a with
  | nil => cases hx
  | cons y l ih =>
      rcases List.mem_cons.mp hx with hxy | hxl
      · subst hxy
        refine le_trans ?_ (maxFold_ge_init l (if x > a then x else a))
        split <;> linarith
      · exact ih _ hxl

/-- Helper: `getD` with default 0 of a nonnegative list is nonnegative. -/
theorem getD_nonneg (l : List ℚ) (i : ℕ) (h : ∀ b ∈ l, 0 ≤ b) :
    0 ≤ l.getD i 0 := by
  by_cases hi : i < l.length
  · rw [List.getD_eq_getElem l 0 hi]
    exact h _ (List.getElem_mem hi)
  · rw [List.getD_eq_default l 0 (le_of_not_lt hi)]

/-- Helper: `gsl_histogram_increment` keeps all bins nonnegative. -/
theorem increment_bin_nonneg (h : GslHistogram) (x : ℚ)
    (hb : ∀ b ∈ h.bin, 0 ≤ b) : ∀ b ∈ (h.increment x).bin, 0 ≤ b := by
  rw [GslHistogram.increment]
  cases hfind : GslHistogram.findBin h.range x with
  | none => exact hb
  | some i =>
      intro b hbm
      rcases List.mem_or_eq_of_mem_set hbm with hold | hnew
      · exact hb _ hold
      · rw [hnew]
        have := getD_nonneg h.bin i hb
        linarith

/-- Helper: every run of `add_sample` calls keeps all buffer entries in
`[-120, 0]` and all histogram bins nonnegative. -/
theorem runAdds_bounds (ws bins : ℕ) (inputs : List FloatVal) :
    (∀ v ∈ (AudioStatistics.runAdds (AudioStatistics.mk' ws bins) inputs).buffer,
      -120 ≤ v ∧ v ≤ 0) ∧
    (∀ b ∈ (AudioStatistics.runAdds (AudioStatistics.mk' ws bins) inputs).hist.bin,
      0 ≤ b) := by
  induction inputs using List.reverseRecOn with
  | nil =>
      constructor
      · intro v hv
        have hv2 : v ∈ (AudioStatistics.mk' ws bins).buffer := hv
        have hbeq : (AudioStatistics.mk' ws bins).buffer = List.replicate ws 0 := rfl
        rw [hbeq] at hv2
        rw [(List.mem_replicate.mp hv2).2]
        norm_num
      · intro b hb
        have hb2 : b ∈ (AudioStatistics.mk' ws bins).hist.bin := hb
        have hbin : (AudioStatistics.mk' ws bins).hist.bin = List.replicate bins 0 := by
          simp [AudioStatistics.mk', AudioStatistics.update_histogram_bins,
            AudioStatistics.reset, GslHistogram.setRangesUniform,
            GslHistogram.resetBins, GslHistogram.alloc]
        rw [hbin] at hb2
        rw [(List.mem_replicate.mp hb2).2]
  | append_singleton xs x ih =>
      have hstep : AudioStatistics.runAdds (AudioStatistics.mk' ws bins) (xs ++ [x]) =
          (AudioStatistics.runAdds (AudioStatistics.mk' ws bins) xs).add_sample x := by
        simp [AudioStatistics.runAdds, List.foldl_concat]
      rw [hstep]
      obtain ⟨ihb, ihh⟩ := ih
      constructor
      · intro v hv
        rcases List.mem_or_eq_of_mem_set hv with hold | hnew
        · exact ihb _ hold
        · rw [hnew]
          exact clampSample_mem x
      · exact increment_bin_nonneg _ _ ihh

/-- Helper: the mean of buffer entries in `[-120, 0]` stays in `[-120, 0]`. -/
theorem get_mean_bounds (st : AudioStatistics)
    (h : ∀ v ∈ st.buffer, -120 ≤ v ∧ v ≤ 0) :
    -120 ≤ st.get_mean ∧ st.get_mean ≤ 0 := by
  rw [AudioStatistics.get_mean]
  split
  · norm_num
  · rw [gslAvg_eq]
    set xs := st.buffer.take st.total_samples with hxs
    have hsub : ∀ v ∈ xs, -120 ≤ v ∧ v ≤ 0 := fun v hv =>
      h v (List.take_subset _ _ hv)
    by_cases hlen : xs.length = 0
    · rw [hlen]
      norm_num
    · have hlen' : (0 : ℚ) < (xs.length : ℚ) := by
        have : 0 < xs.length := Nat.pos_of_ne_zero hlen
        exact_mod_cast this
      have hup : xs.sum ≤ 0 := by
        have := List.sum_le_card_nsmul xs 0 (fun v hv => (hsub v hv).2)
        simpa using this
      have hlow : (xs.length : ℚ) * (-120) ≤ xs.sum := by
        have := List.card_nsmul_le_sum xs (-120 : ℚ) (fun v hv => (hsub v hv).1)
        rwa [nsmul_eq_mul] at this
      constructor
      · rw [le_div_iff hlen']
        linarith
      · rw [div_le_iff hlen']
        linarith

/-- Helper: normalized histogram data lies in `[0, 1]`. -/
theorem get_histogram_data_bounds (st : AudioStatistics)
    (h : ∀ b ∈ st.hist.bin, 0 ≤ b) :
    ∀ v ∈ st.get_histogram_data, 0 ≤ v ∧ v ≤ 1 := by
  intro v hv
  rw [AudioStatistics.get_histogram_data] at hv
  obtain ⟨b, hb, rfl⟩ := List.mem_map.mp hv
  split
  · next hmax =>
      constructor
      · exact div_nonneg (h b hb) (le_of_lt hmax)
      · rw [div_le_one hmax]
        exact maxFold_ge_mem st.hist.bin 0 b hb
  · norm_num

/-- Helper: the checked running average never fails (the divisor `i + 1`
is never zero). -/
theorem gslAvgGoCheck_eq (xs : List ℝ) :
    ∀ (m : ℝ) (i : ℕ), gslAvgGoCheck xs m i = some (gslAvgGo xs m i) := by
  induction xs with
  | nil => intro m i; rfl
  | cons x xs ih =>
      intro m i
      have hne : ((i : ℝ) + 1) ≠ 0 := by positivity
      rw [gslAvgGoCheck, divCheck, if_neg hne]
      show gslAvgGoCheck xs (m + (x - m) / ((i : ℝ) + 1)) (i + 1) =
        some (gslAvgGo (x :: xs) m i)
      rw [ih]
      rfl

/-- Helper: with a nonzero divisor, the checked division mapM succeeds and
produces the plain map. -/
theorem mapM_divCheck (xs : List ℝ) (mean sd : ℝ) (hsd : sd ≠ 0) :
    xs.mapM (fun x => divCheck (x - mean) sd) =
      some (xs.map fun x => (x - mean) / sd) := by
  induction xs with
  | nil => rfl
  | cons x xs ih =>
      rw [List.mapM_cons, divCheck, if_neg hsd]
      rw [ih]
      rfl

/-- Helper: the running average of squared deviations is nonnegative. -/
theorem gslAvg_sq_nonneg (xs : List ℝ) (m : ℝ) :
    0 ≤ gslAvgGo (xs.map fun x => (x - m) * (x - m)) 0 0 := by
  rw [show (gslAvgGo (xs.map fun x => (x - m) * (x - m)) 0 0 : ℝ)
      = gslAvg (xs.map fun x => (x - m) * (x - m)) from rfl, gslAvg_eq]
  apply div_nonneg
  · apply List.sum_nonneg
    intro v hv
    obtain ⟨x, _, rfl⟩ := List.mem_map.mp hv
    exact mul_self_nonneg _
  · positivity

/-- Helper: on any state whose valid-sample count fits in the buffer, the
checked evaluation of `get_kurtosis` succeeds — no division by zero, no
square root of a negative — and returns exactly `get_kurtosis`. -/
theorem get_kurtosisCheck_eq (st : AudioStatistics)
    (h : st.total_samples ≤ st.buffer.length) :
    get_kurtosisCheck st = some st.get_kurtosis := by
  rw [get_kurtosisCheck, AudioStatistics.get_kurtosis]
  by_cases h4 : st.total_samples < 4
  · rw [if_pos h4, if_pos h4]
  · rw [if_neg h4, if_neg h4]
    have hlen : st.linearValues.length = st.total_samples := by
      rw [AudioStatistics.linearValues, List.length_map, List.length_take]
      omega
    have hn1 : ((st.linearValues.length : ℝ) - 1) ≠ 0 := by
      rw [hlen]
      have : (4 : ℝ) ≤ (st.total_samples : ℝ) := by exact_mod_cast (by omega : 4 ≤ st.total_samples)
      intro hcon
      have : (st.total_samples : ℝ) = 1 := by linarith
      linarith
    simp only [gslAvgGoCheck_eq, Option.some_bind]
    rw [divCheck, if_neg hn1]
    simp only [Option.some_bind]
    have hvar0 : 0 ≤ gslAvgGo (st.linearValues.map fun x =>
        (x - gslAvgGo st.linearValues 0 0) * (x - gslAvgGo st.linearValues 0 0)) 0 0 :=
      gslAvg_sq_nonneg st.linearValues (gslAvgGo st.linearValues 0 0)
    have hratio0 : (0 : ℝ) ≤ (st.linearValues.length : ℝ) /
        ((st.linearValues.length : ℝ) - 1) := by
      apply div_nonneg (by positivity)
      rw [hlen]
      have : (4 : ℝ) ≤ (st.total_samples : ℝ) := by exact_mod_cast (by omega : 4 ≤ st.total_samples)
      linarith
    have hprod0 : 0 ≤ gslAvgGo (st.linearValues.map fun x =>
        (x - gslAvgGo st.linearValues 0 0) * (x - gslAvgGo st.linearValues 0 0)) 0 0 *
        ((st.linearValues.length : ℝ) / ((st.linearValues.length : ℝ) - 1)) :=
      mul_nonneg hvar0 hratio0
    rw [sqrtCheck, if_neg (not_lt.mpr hprod0)]
    simp only [Option.some_bind]
    have hvareq : gslVariance st.linearValues =
        gslAvgGo (st.linearValues.map fun x =>
          (x - gslAvgGo st.linearValues 0 0) * (x - gslAvgGo st.linearValues 0 0)) 0 0 *
          ((st.linearValues.length : ℝ) / ((st.linearValues.length : ℝ) - 1)) := rfl
    rw [← hvareq]
    by_cases hsd : Real.sqrt (gslVariance st.linearValues) = 0
    · rw [if_pos hsd, if_pos hsd]
    · rw [if_neg hsd, if_neg hsd]
      rw [mapM_divCheck _ _ _ hsd]
      simp only [Option.some_bind, gslAvgGoCheck_eq]
      rw [List.map_map]
      rfl

end SafetyLemmas

/-- C3: for every sequence of `add_sample` inputs — including NaN, +10 dB
and -500 dB — every value stored in the Statistics Window lies in
`[-120, 0]` (NaN is mapped to -120 before clamping); `get_mean` stays in
`[-120, 0]`, every entry of `get_histogram_data` stays in `[0, 1]`, and the
checked (NaN/Inf-tracking) evaluation of `get_kurtosis` succeeds, so none
of the three getters produces NaN or infinity. -/
theorem add_sample_safety (ws bins : ℕ) (hws : 0 < ws) (inputs : List FloatVal) :
    (∀ v ∈ (AudioStatistics.runAdds (AudioStatistics.mk' ws bins) inputs).buffer,
      -120 ≤ v ∧ v ≤ 0) ∧
    (-120 ≤ (AudioStatistics.runAdds (AudioStatistics.mk' ws bins) inputs).get_mean ∧
      (AudioStatistics.runAdds (AudioStatistics.mk' ws bins) inputs).get_mean ≤ 0) ∧
    (∀ v ∈ (AudioStatistics.runAdds (AudioStatistics.mk' ws bins) inputs).get_histogram_data,
      0 ≤ v ∧ v ≤ 1) ∧
    get_kurtosisCheck (AudioStatistics.runAdds (AudioStatistics.mk' ws bins) inputs) =
      some (AudioStatistics.runAdds (AudioStatistics.mk' ws bins) inputs).get_kurtosis := by
  obtain ⟨hbuf, hbin⟩ := runAdds_bounds ws bins inputs
  obtain ⟨hw, hl, ht, _, _⟩ := runAdds_state ws bins hws inputs
  exact ⟨hbuf, get_mean_bounds _ hbuf, get_histogram_data_bounds _ hbin,
    get_kurtosisCheck_eq _ (by rw [ht, hl]; omega)⟩

/-- Witness for `add_sample_safety`: a window of 3 fed NaN, +10 dB and
-500 dB. -/
theorem add_sample_safety_witness :
    0 < 3 ∧
    ((∀ v ∈ (AudioStatistics.runAdds (AudioStatistics.mk' 3 2)
        [FloatVal.nan, FloatVal.fin 10, FloatVal.fin (-500)]).buffer,
      -120 ≤ v ∧ v ≤ 0) ∧
    (-120 ≤ (AudioStatistics.runAdds (AudioStatistics.mk' 3 2)
        [FloatVal.nan, FloatVal.fin 10, FloatVal.fin (-500)]).get_mean ∧
      (AudioStatistics.runAdds (AudioStatistics.mk' 3 2)
        [FloatVal.nan, FloatVal.fin 10, FloatVal.fin (-500)]).get_mean ≤ 0) ∧
    (∀ v ∈ (AudioStatistics.runAdds (AudioStatistics.mk' 3 2)
        [FloatVal.nan, FloatVal.fin 10, FloatVal.fin (-500)]).get_histogram_data,
      0 ≤ v ∧ v ≤ 1) ∧
    get_kurtosisCheck (AudioStatistics.runAdds (AudioStatistics.mk' 3 2)
        [FloatVal.nan, FloatVal.fin 10, FloatVal.fin (-500)]) =
      some (AudioStatistics.runAdds (AudioStatistics.mk' 3 2)
        [FloatVal.nan, FloatVal.fin 10, FloatVal.fin (-500)]).get_kurtosis) :=
  ⟨by decide, add_sample_safety 3 2 (by decide)
    [FloatVal.nan, FloatVal.fin 10, FloatVal.fin (-500)]⟩
